import Mathlib

/-!
Verification of the alx-polly polling application's lifecycle and voting
logic against its natural-language specification.

The definitions below are a shallow embedding of the TypeScript source:

 - timestamps are integers (epoch milliseconds, as compared by JS Date);
 - the database tables polls, options, votes are lists of rows, and the
   state carries a counter supplying fresh row identifiers for inserts;
 - each server action becomes a pure function from a state (plus the
   current instant and the acting user) to a result and a new state;
 - Supabase calls that can fail are modelled with an explicit
   failure-injection flag where a claim depends on the failure path.

Sources embedded: the voting actions castVote, changeVote, removeVote and
the lifecycle checks in src/lib/actions/shared/supabase-client.ts (the
voting service), the status computation of the poll detail page
src/app/(polls)/polls/[id]/page.tsx, the management actions createPoll,
editPoll, duplicatePoll and db_updatePollOptions in
src/lib/actions/poll-management.ts, the legacy createPoll in
src/lib/actions.ts, and the createPollFormSchema validator in
src/lib/validators.ts.
-/

namespace Polly

abbrev UserId := String

/-- A row of the polls table: id, question, owner, optional window. -/
structure PollRow where
  id : Nat
  question : String
  user_id : UserId
  starts_at : Option Int
  ends_at : Option Int
deriving DecidableEq, Repr

/-- A row of the options table: id, owning poll, text value. -/
structure OptionRow where
  id : Nat
  poll_id : Nat
  value : String
deriving DecidableEq, Repr

/-- A row of the votes table: id, chosen option, voting user, and the
denormalized poll id used by the one-vote-per-poll existence check. -/
structure VoteRow where
  id : Nat
  option_id : Nat
  user_id : UserId
  poll_id : Nat
deriving DecidableEq, Repr

/-- The datastore: the three tables plus a counter supplying fresh row
identifiers (the embedding of the database's id generation). -/
structure DBState where
  polls : List PollRow
  options : List OptionRow
  votes : List VoteRow
  nextId : Nat
deriving DecidableEq, Repr

/-! ## Poll lifecycle -/

/-- The not-yet-started test of castVote: startsAt is set and now is
strictly before it (if (startsAt and now < startsAt)). -/
def beforeStart (starts_at : Option Int) (now : Int) : Bool :=
  match starts_at with
  | some st => decide (now < st)
  | none => false

/-- The already-ended test of castVote, removeVote and changeVote: endsAt
is set and now is strictly after it (if (endsAt and now > endsAt)). -/
def afterEnd (ends_at : Option Int) (now : Int) : Bool :=
  match ends_at with
  | some en => decide (en < now)
  | none => false

/-- The three lifecycle classifications of a poll. -/
inductive LifecycleStatus
  | notStarted
  | active
  | ended
deriving DecidableEq, Repr

/-- Lifecycle status as computed by the voting service: the branch order
of castVote in supabase-client.ts and of getPollStatus in the utils
module (not-started checked first, then ended, otherwise active). -/
def status (starts_at ends_at : Option Int) (now : Int) : LifecycleStatus :=
  if beforeStart starts_at now then .notStarted
  else if afterEnd ends_at now then .ended
  else .active

/-- hasStarted of the poll detail page: starts_at unset, or starts_at
at or before now. -/
def pageHasStarted (starts_at : Option Int) (now : Int) : Bool :=
  match starts_at with
  | some st => decide (st ≤ now)
  | none => true

/-- hasEnded of the poll detail page: ends_at set and at or before now.
Note the non-strict comparison, unlike afterEnd in the voting service. -/
def pageHasEnded (ends_at : Option Int) (now : Int) : Bool :=
  match ends_at with
  | some en => decide (en ≤ now)
  | none => false

/-- Lifecycle classification rendered by the poll detail page
(isActive, then hasEnded, otherwise not started). -/
def pageStatus (starts_at ends_at : Option Int) (now : Int) : LifecycleStatus :=
  if pageHasStarted starts_at now && !(pageHasEnded ends_at now) then .active
  else if pageHasEnded ends_at now then .ended
  else .notStarted

/-- The ACTIVE predicate as the specification states it: (start unset or
now at or after start) and (end unset or now at or before end). -/
def activeB (starts_at ends_at : Option Int) (now : Int) : Bool :=
  (match starts_at with
   | some st => decide (st ≤ now)
   | none => true) &&
  (match ends_at with
   | some en => decide (now ≤ en)
   | none => true)

/-- A well-formed window: when both endpoints are set, end is after
start. -/
def wellFormedWindow (starts_at ends_at : Option Int) : Bool :=
  match starts_at, ends_at with
  | some st, some en => decide (st < en)
  | _, _ => true

/-! ## Voting service -/

/-- The existence check of castVote: does a vote row by this user for
this poll exist (select from votes where user_id and poll_id match)? -/
def hasVote (votes : List VoteRow) (u : UserId) (pid : Nat) : Bool :=
  votes.any (fun v => v.user_id == u && v.poll_id == pid)

/-- Number of vote rows by a given user for a given poll. -/
def voteCount (votes : List VoteRow) (u : UserId) (pid : Nat) : Nat :=
  votes.countP (fun v => v.user_id == u && v.poll_id == pid)

/-- Number of vote rows referencing a given option (the per-option count
of the aggregation read). -/
def voteCountOfOption (votes : List VoteRow) (oid : Nat) : Nat :=
  votes.countP (fun v => v.option_id == oid)

/-- Lookup of a poll row by id (select from polls where id matches). -/
def findPoll (s : DBState) (pid : Nat) : Option PollRow :=
  s.polls.find? (fun p => p.id == pid)

/-- The outcomes the voting actions can report. The source returns them
as error strings; pollNotStarted and pollEnded are the two constituents
of the specification's PollNotActive. -/
inductive VoteOutcome
  | alreadyVoted
  | pollNotFound
  | pollNotStarted
  | pollEnded
  | success
deriving DecidableEq, Repr

/-- castVote from supabase-client.ts, after authentication and input
validation: first the prior-vote existence check, then the poll lookup,
then the window checks, and finally the insert of one vote row bound to
the acting user, the poll and the chosen option. -/
def castVote (s : DBState) (now : Int) (u : UserId) (pid oid : Nat) :
    VoteOutcome × DBState :=
  if hasVote s.votes u pid then (.alreadyVoted, s)
  else
    match findPoll s pid with
    | none => (.pollNotFound, s)
    | some poll =>
      if beforeStart poll.starts_at now then (.pollNotStarted, s)
      else if afterEnd poll.ends_at now then (.pollEnded, s)
      else
        (.success,
          { s with
              votes := s.votes ++ [⟨s.nextId, oid, u, pid⟩],
              nextId := s.nextId + 1 })

/-- changeVote from supabase-client.ts: poll lookup, the ended check,
then an update of option_id on the rows matching the acting user and the
poll (an update matching zero rows is still reported as success). -/
def changeVote (s : DBState) (now : Int) (u : UserId) (pid newOid : Nat) :
    VoteOutcome × DBState :=
  match findPoll s pid with
  | none => (.pollNotFound, s)
  | some poll =>
    if afterEnd poll.ends_at now then (.pollEnded, s)
    else
      (.success,
        { s with
            votes := s.votes.map (fun v =>
              if v.user_id == u && v.poll_id == pid then
                { v with option_id := newOid }
              else v) })

/-- removeVote from supabase-client.ts: poll lookup, the ended check,
then a delete of the rows matching the acting user and the poll (a
delete matching zero rows is still reported as success). -/
def removeVote (s : DBState) (now : Int) (u : UserId) (pid : Nat) :
    VoteOutcome × DBState :=
  match findPoll s pid with
  | none => (.pollNotFound, s)
  | some poll =>
    if afterEnd poll.ends_at now then (.pollEnded, s)
    else
      (.success,
        { s with
            votes := s.votes.filter (fun v =>
              !(v.user_id == u && v.poll_id == pid)) })

/-- One invocation of a voting action, for sequential executions. -/
inductive VoteOp
  | cast (now : Int) (u : UserId) (pid oid : Nat)
  | change (now : Int) (u : UserId) (pid newOid : Nat)
  | remove (now : Int) (u : UserId) (pid : Nat)
deriving DecidableEq, Repr

/-- The state transition of one voting action (its reported outcome
discarded). -/
def applyVoteOp (s : DBState) : VoteOp → DBState
  | .cast now u pid oid => (castVote s now u pid oid).2
  | .change now u pid newOid => (changeVote s now u pid newOid).2
  | .remove now u pid => (removeVote s now u pid).2

/-- A sequential execution of voting actions. -/
def runVoteOps (s : DBState) (ops : List VoteOp) : DBState :=
  ops.foldl applyVoteOp s

/-- The one-vote invariant: at most one vote row per (user, poll)
pair. -/
def OneVotePerUserPoll (votes : List VoteRow) : Prop :=
  ∀ u pid, voteCount votes u pid ≤ 1

/-! ## Validation layer -/

/-- A poll creation or edit submission, after form decoding: question
text, option values, optional window endpoints. -/
structure PollInput where
  question : String
  options : List String
  starts_at : Option Int
  ends_at : Option Int
deriving DecidableEq, Repr

/-- createPollFormSchema from validators.ts: question of length at least
5; at least 2 options, each of length at least 1; option values unique
(the source compares the size of a Set of the values with the length of
the list, embedded here through dedup); and when both window endpoints
are present, end strictly after start. -/
def validatePollInput (i : PollInput) : Bool :=
  decide (5 ≤ i.question.length) &&
  decide (2 ≤ i.options.length) &&
  i.options.all (fun v => decide (1 ≤ v.length)) &&
  (i.options.dedup.length == i.options.length) &&
  (match i.starts_at, i.ends_at with
   | some st, some en => decide (st < en)
   | _, _ => true)

/-! ## Poll management service -/

/-- Bulk insert of option rows for one poll: each submitted value in
order becomes a row with a fresh identifier. -/
def insertFresh (pid : Nat) : Nat → List String → List OptionRow
  | _, [] => []
  | n, v :: vs => ⟨n, pid, v⟩ :: insertFresh pid (n + 1) vs

/-- db_updatePollOptions from poll-management.ts, acting on the stored
option rows of one poll: values present in the submission but absent
from storage are inserted with fresh identifiers; stored rows whose
value is absent from the submission are deleted by identifier; all other
rows are left untouched. -/
def db_updatePollOptions (pid : Nat) (existing : List OptionRow)
    (newOptions : List String) (nextId : Nat) : List OptionRow :=
  let existingValues := existing.map OptionRow.value
  let toAdd := newOptions.filter (fun v => !(existingValues.contains v))
  let removeIds :=
    (existing.filter (fun o => !(newOptions.contains o.value))).map OptionRow.id
  (existing ++ insertFresh pid nextId toAdd).filter
    (fun o => !(removeIds.contains o.id))

/-- Results of the management actions. -/
inductive ActionResult
  | validationError
  | optionsInsertError
  | success
deriving DecidableEq, Repr

/-- No orphaned poll: every poll row has at least one option row. -/
def PollsHaveOptions (s : DBState) : Prop :=
  ∀ p ∈ s.polls, ∃ o ∈ s.options, o.poll_id = p.id

namespace PollManagement

/-- createPoll from poll-management.ts: validate, insert the poll row,
then insert the option rows; when the option insert fails,
db_insertOptions deletes the just-created poll before surfacing the
error. The failure of the bulk option insert is injected through the
optionsInsertFails flag. -/
def createPoll (s : DBState) (u : UserId) (i : PollInput)
    (optionsInsertFails : Bool) : ActionResult × DBState :=
  if !(validatePollInput i) then (.validationError, s)
  else
    let pid := s.nextId
    let s1 : DBState :=
      { s with
          polls := s.polls ++ [⟨pid, i.question, u, i.starts_at, i.ends_at⟩],
          nextId := s.nextId + 1 }
    if optionsInsertFails then
      (.optionsInsertError,
        { s1 with polls := s1.polls.filter (fun p => !(p.id == pid)) })
    else
      (.success,
        { s1 with
            options := s1.options ++ insertFresh pid s1.nextId i.options,
            nextId := s1.nextId + i.options.length })

/-- editPoll from poll-management.ts: validate, update question and
window on the poll row matching both the id and the owner, then
reconcile the poll's option rows by value-set difference. -/
def editPoll (s : DBState) (u : UserId) (pid : Nat) (i : PollInput) :
    ActionResult × DBState :=
  if !(validatePollInput i) then (.validationError, s)
  else
    let polls1 := s.polls.map (fun p =>
      if p.id == pid && p.user_id == u then
        { p with
            question := i.question,
            starts_at := i.starts_at,
            ends_at := i.ends_at }
      else p)
    let existing := s.options.filter (fun o => o.poll_id == pid)
    let reconciled := db_updatePollOptions pid existing i.options s.nextId
    let addedCount :=
      (i.options.filter
        (fun v => !((existing.map OptionRow.value).contains v))).length
    (.success,
      { polls := polls1,
        options := s.options.filter (fun o => !(o.poll_id == pid)) ++ reconciled,
        votes := s.votes,
        nextId := s.nextId + addedCount })

end PollManagement

namespace Actions

/-- The legacy createPoll from actions.ts: validate, insert the poll
row, then insert the option rows; when the option insert fails the
error is surfaced directly, with no compensating delete of the
just-created poll. -/
def createPoll (s : DBState) (u : UserId) (i : PollInput)
    (optionsInsertFails : Bool) : ActionResult × DBState :=
  if !(validatePollInput i) then (.validationError, s)
  else
    let pid := s.nextId
    let s1 : DBState :=
      { s with
          polls := s.polls ++ [⟨pid, i.question, u, i.starts_at, i.ends_at⟩],
          nextId := s.nextId + 1 }
    if optionsInsertFails then (.optionsInsertError, s1)
    else
      (.success,
        { s1 with
            options := s1.options ++ insertFresh pid s1.nextId i.options,
            nextId := s1.nextId + i.options.length })

end Actions

/-- JS truthy or-else, as used for the duplicated question: an absent or
empty new question falls back to the default. -/
def jsOr (a : Option String) (b : String) : String :=
  match a with
  | none => b
  | some q => if q = "" then b else q

/-- The stored option values of one poll, in storage order. -/
def pollOptionValues (s : DBState) (pid : Nat) : List String :=
  (s.options.filter (fun o => o.poll_id == pid)).map OptionRow.value

/-- duplicatePoll from poll-management.ts, success path: fetch the source
poll and its option values, insert a new poll owned by the caller with
both window endpoints unset and the question given by the truthy or-else
of the supplied new question against the copy-of default, then insert
one fresh option per source option value (skipped when the source has
none). Returns the new poll's id. -/
def duplicatePoll (s : DBState) (u : UserId) (pid : Nat)
    (newQuestion : Option String) : Option Nat × DBState :=
  match findPoll s pid with
  | none => (none, s)
  | some orig =>
    let q := jsOr newQuestion ("Copy of " ++ orig.question)
    let newPid := s.nextId
    let s1 : DBState :=
      { s with
          polls := s.polls ++ [⟨newPid, q, u, none, none⟩],
          nextId := s.nextId + 1 }
    let vals := pollOptionValues s pid
    if vals.length == 0 then (some newPid, s1)
    else
      (some newPid,
        { s1 with
            options := s1.options ++ insertFresh newPid s1.nextId vals,
            nextId := s1.nextId + vals.length })

/-! ## Concrete fixtures used by witnesses and counterexamples -/

def uAlice : UserId := "alice"

def uBob : UserId := "bob"

def qFav : String := "Favorite color?"

def copyQFav : String := "Copy of " ++ qFav

def emptyStr : String := ""

def pollOpen : PollRow := ⟨1, qFav, uAlice, none, none⟩

def pollEnded : PollRow := ⟨1, qFav, uAlice, none, some 0⟩

def pollFuture : PollRow := ⟨1, qFav, uAlice, some 10, none⟩

def optA : OptionRow := ⟨2, 1, "A"⟩

def optsAB : List OptionRow := [⟨2, 1, "A"⟩, ⟨3, 1, "B"⟩]

def valsBA : List String := ["B", "A"]

def valsAC : List String := ["A", "C"]

def sOpen : DBState := ⟨[pollOpen], optsAB, [], 4⟩

def sVoted : DBState := ⟨[pollOpen], optsAB, [⟨4, 2, uBob, 1⟩], 5⟩

def sEndedVoted : DBState := ⟨[pollEnded], optsAB, [⟨4, 2, uBob, 1⟩], 5⟩

def sFutureVoted : DBState := ⟨[pollFuture], optsAB, [⟨4, 2, uBob, 1⟩], 5⟩

def emptyS : DBState := ⟨[], [], [], 0⟩

def inputGood : PollInput := ⟨qFav, ["A", "B"], none, none⟩

def inputShort : PollInput := ⟨"Hi", ["A", "B"], none, none⟩

/-! ## Lifecycle theorems -/

/-- C3 (amended): for every window with end after start when both are
set and every instant, exactly one of the claim's three predicates
holds, and the voting-service status function returns exactly that one;
at an instant exactly equal to the end the voting-service status is
ACTIVE. The poll detail page's variant, however, classifies an instant
exactly equal to the end as ENDED. -/
theorem status_exhaustive_exclusive (starts_at ends_at : Option Int) (now : Int)
    (hwf : wellFormedWindow starts_at ends_at = true) :
    ((status starts_at ends_at now = .notStarted ↔ beforeStart starts_at now = true) ∧
     (status starts_at ends_at now = .active ↔ activeB starts_at ends_at now = true) ∧
     (status starts_at ends_at now = .ended ↔ afterEnd ends_at now = true)) ∧
    (∀ en, ends_at = some en → now = en →
      status starts_at ends_at now = .active ∧
      pageStatus starts_at ends_at now = .ended) := by
  cases starts_at with
  | none =>
    cases ends_at with
    | none =>
      simp [status, beforeStart, afterEnd, activeB, pageStatus, pageHasStarted, pageHasEnded]
    | some en =>
      simp only [status, beforeStart, afterEnd, activeB, pageStatus, pageHasStarted,
        pageHasEnded, wellFormedWindow] at *
      constructor
      · split_ifs with h <;> simp_all
      · intro en2 he hn
        cases he
        subst hn
        split_ifs with h <;> simp_all
  | some st =>
    cases ends_at with
    | none =>
      simp only [status, beforeStart, afterEnd, activeB, pageStatus, pageHasStarted,
        pageHasEnded, wellFormedWindow] at *
      constructor
      · split_ifs with h <;> simp_all
      · intro en2 he
        cases he
    | some en =>
      simp only [status, beforeStart, afterEnd, activeB, pageStatus, pageHasStarted,
        pageHasEnded, wellFormedWindow, decide_eq_true_eq] at *
      constructor
      · split_ifs with h1 h2 <;> simp_all
        omega
      · intro en2 he hn
        cases he
        subst hn
        split_ifs with h1 h2 <;> simp_all
        omega

/-- Witness for the amended C3 theorem at a concrete window: the instant
equal to the end is ACTIVE for the voting service and ENDED on the poll
detail page. -/
theorem status_exhaustive_exclusive_witness :
    status (some 0) (some 5) 5 = LifecycleStatus.active ∧
    pageStatus (some 0) (some 5) 5 = LifecycleStatus.ended := by
  have h := status_exhaustive_exclusive (some 0) (some 5) 5 (by decide)
  exact h.2 5 rfl rfl

/-- C3 counterexample: at an instant exactly equal to the end of the
window (end 0, now 0), the claim's ACTIVE predicate holds and the claim
says the poll is ACTIVE, yet the poll detail page classifies it as
ENDED, not ACTIVE. -/
theorem pageStatus_boundary_counterexample :
    activeB none (some 0) 0 = true ∧
    wellFormedWindow none (some 0) = true ∧
    pageStatus none (some 0) 0 = LifecycleStatus.ended ∧
    ¬ pageStatus none (some 0) 0 = LifecycleStatus.active := by
  decide

/-! ## Voting theorems -/

/-- C10: when the acting user already has a vote row for the poll,
castVote reports AlreadyVoted and leaves the state unchanged, whatever
the current instant and hence whatever the poll's window says: the
prior-vote existence check runs before the lifecycle checks. -/
theorem castVote_alreadyVoted_first (s : DBState) (now : Int) (u : UserId)
    (pid oid : Nat) (h : hasVote s.votes u pid = true) :
    castVote s now u pid oid = (.alreadyVoted, s) := by
  simp [castVote, h]

/-- Witness for C10: a repeat cast on an already-ended poll reports
AlreadyVoted, not the ended error. -/
theorem castVote_alreadyVoted_first_witness :
    hasVote sEndedVoted.votes uBob 1 = true ∧
    afterEnd pollEnded.ends_at 5 = true ∧
    castVote sEndedVoted 5 uBob 1 3 = (VoteOutcome.alreadyVoted, sEndedVoted) := by
  exact ⟨by decide, by decide, castVote_alreadyVoted_first sEndedVoted 5 uBob 1 3 (by decide)⟩

/-- C2: the castVote contract. With the poll row in storage: a prior
vote by the user yields AlreadyVoted with no mutation; a non-active
lifecycle status yields the not-started or the ended error (the two
faces of PollNotActive) with no mutation; an active status appends
exactly one vote row bound to the user, the poll and the option; and
after such a success any later cast by the same user on the same poll
yields AlreadyVoted, so the action is not idempotent. -/
theorem castVote_contract (s : DBState) (now : Int) (u : UserId) (pid oid : Nat)
    (poll : PollRow) (hfind : findPoll s pid = some poll) :
    (hasVote s.votes u pid = true →
      castVote s now u pid oid = (.alreadyVoted, s)) ∧
    (hasVote s.votes u pid = false →
      status poll.starts_at poll.ends_at now ≠ .active →
      ((castVote s now u pid oid).1 = .pollNotStarted ∨
       (castVote s now u pid oid).1 = .pollEnded) ∧
      (castVote s now u pid oid).2 = s) ∧
    (hasVote s.votes u pid = false →
      status poll.starts_at poll.ends_at now = .active →
      castVote s now u pid oid =
        (.success,
          { s with
              votes := s.votes ++ [⟨s.nextId, oid, u, pid⟩],
              nextId := s.nextId + 1 })) ∧
    (hasVote s.votes u pid = false →
      status poll.starts_at poll.ends_at now = .active →
      ∀ now2 oid2, (castVote (castVote s now u pid oid).2 now2 u pid oid2).1 =
        .alreadyVoted) := by
  refine ⟨fun h => by simp [castVote, h], ?_, ?_, ?_⟩
  · intro h hs
    cases hb : beforeStart poll.starts_at now with
    | true => simp [castVote, h, hfind, hb]
    | false =>
      cases ha : afterEnd poll.ends_at now with
      | true => simp [castVote, h, hfind, hb, ha]
      | false => exact absurd (by simp [status, hb, ha]) hs
  · intro h hs
    have hb : beforeStart poll.starts_at now = false := by
      cases hb : beforeStart poll.starts_at now with
      | true => simp [status, hb] at hs
      | false => rfl
    have ha : afterEnd poll.ends_at now = false := by
      cases ha : afterEnd poll.ends_at now with
      | true => simp [status, hb, ha] at hs
      | false => rfl
    simp [castVote, h, hfind, hb, ha]
  · intro h hs now2 oid2
    have hb : beforeStart poll.starts_at now = false := by
      cases hb : beforeStart poll.starts_at now with
      | true => simp [status, hb] at hs
      | false => rfl
    have ha : afterEnd poll.ends_at now = false := by
      cases ha : afterEnd poll.ends_at now with
      | true => simp [status, hb, ha] at hs
      | false => rfl
    have hstep : castVote s now u pid oid =
        (.success,
          { s with
              votes := s.votes ++ [⟨s.nextId, oid, u, pid⟩],
              nextId := s.nextId + 1 }) := by
      simp [castVote, h, hfind, hb, ha]
    rw [hstep]
    have hv2 : hasVote (s.votes ++ [⟨s.nextId, oid, u, pid⟩]) u pid = true := by
      simp [hasVote]
    simp [castVote, hv2]

/-- Witness for C2 on a concrete open poll: the first cast succeeds and
appends the vote row; the second cast reports AlreadyVoted. -/
theorem castVote_contract_witness :
    castVote sOpen 0 uBob 1 2 =
      (VoteOutcome.success,
        { sOpen with
            votes := sOpen.votes ++ [⟨sOpen.nextId, 2, uBob, 1⟩],
            nextId := sOpen.nextId + 1 }) ∧
    (castVote (castVote sOpen 0 uBob 1 2).2 7 uBob 1 3).1 =
      VoteOutcome.alreadyVoted := by
  have h := castVote_contract sOpen 0 uBob 1 2 pollOpen (by decide)
  exact ⟨h.2.2.1 (by decide) (by decide), h.2.2.2 (by decide) (by decide) 7 3⟩

/-- A user with no vote row for a poll has a zero vote count there. -/
theorem voteCount_eq_zero_of_not_hasVote {votes : List VoteRow} {u : UserId}
    {pid : Nat} (h : hasVote votes u pid = false) : voteCount votes u pid = 0 :=
  List.countP_eq_zero.mpr (fun v hv => List.any_eq_false.mp h v hv)

/-- Appending one vote row for a pair that had none preserves the
one-vote invariant. -/
theorem oneVote_append {votes : List VoteRow} (h : OneVotePerUserPoll votes)
    (v : VoteRow) (hv : hasVote votes v.user_id v.poll_id = false) :
    OneVotePerUserPoll (votes ++ [v]) := by
  intro u pid
  unfold voteCount
  rw [List.countP_append, List.countP_singleton]
  by_cases hb : (v.user_id == u && v.poll_id == pid) = true
  · have he : v.user_id = u ∧ v.poll_id = pid := by simpa using hb
    obtain ⟨h1, h2⟩ := he
    have h0 : voteCount votes u pid = 0 := by
      rw [← h1, ← h2]
      exact voteCount_eq_zero_of_not_hasVote hv
    unfold voteCount at h0
    simp [hb, h0]
  · have h1 := h u pid
    unfold voteCount at h1
    simp only [hb, if_neg]
    simpa using h1

/-- Mapping a transformation that keeps the user and poll fields
preserves the one-vote invariant. -/
theorem oneVote_map {votes : List VoteRow} (h : OneVotePerUserPoll votes)
    (f : VoteRow → VoteRow)
    (hf : ∀ v, (f v).user_id = v.user_id ∧ (f v).poll_id = v.poll_id) :
    OneVotePerUserPoll (votes.map f) := by
  intro u pid
  unfold voteCount
  rw [List.countP_map]
  have hc : votes.countP
      ((fun v : VoteRow => v.user_id == u && v.poll_id == pid) ∘ f) =
      votes.countP (fun v : VoteRow => v.user_id == u && v.poll_id == pid) := by
    refine List.countP_congr (fun v _ => ?_)
    simp [Function.comp, (hf v).1, (hf v).2]
  rw [hc]
  exact h u pid

/-- Filtering the vote table preserves the one-vote invariant. -/
theorem oneVote_filter {votes : List VoteRow} (h : OneVotePerUserPoll votes)
    (q : VoteRow → Bool) : OneVotePerUserPoll (votes.filter q) := by
  intro u pid
  unfold voteCount
  rw [List.countP_filter]
  refine le_trans (List.countP_mono_left (fun v _ hb => ?_)) (h u pid)
  exact (Bool.and_eq_true _ _ |>.mp hb).1

/-- One voting action preserves the one-vote invariant. -/
theorem applyVoteOp_preserves (s : DBState) (op : VoteOp)
    (h : OneVotePerUserPoll s.votes) :
    OneVotePerUserPoll (applyVoteOp s op).votes := by
  cases op with
  | cast now u pid oid =>
    show OneVotePerUserPoll (castVote s now u pid oid).2.votes
    unfold castVote
    cases hv : hasVote s.votes u pid with
    | true => simpa [hv] using h
    | false =>
      cases hfind : findPoll s pid with
      | none => simpa [hv, hfind] using h
      | some poll =>
        cases hb : beforeStart poll.starts_at now with
        | true => simpa [hv, hfind, hb] using h
        | false =>
          cases ha : afterEnd poll.ends_at now with
          | true => simpa [hv, hfind, hb, ha] using h
          | false =>
            simp only [hv, hfind, hb, ha, Bool.false_eq_true, if_false]
            exact oneVote_append h ⟨s.nextId, oid, u, pid⟩ hv
  | change now u pid newOid =>
    show OneVotePerUserPoll (changeVote s now u pid newOid).2.votes
    unfold changeVote
    cases hfind : findPoll s pid with
    | none => simpa [hfind] using h
    | some poll =>
      cases ha : afterEnd poll.ends_at now with
      | true => simpa [hfind, ha] using h
      | false =>
        simp only [hfind, ha, Bool.false_eq_true, if_false]
        refine oneVote_map h _ (fun v => ?_)
        by_cases hm : (v.user_id == u && v.poll_id == pid) = true <;> simp [hm]
  | remove now u pid =>
    show OneVotePerUserPoll (removeVote s now u pid).2.votes
    unfold removeVote
    cases hfind : findPoll s pid with
    | none => simpa [hfind] using h
    | some poll =>
      cases ha : afterEnd poll.ends_at now with
      | true => simpa [hfind, ha] using h
      | false =>
        simp only [hfind, ha, Bool.false_eq_true, if_false]
        exact oneVote_filter h _

/-- C1: starting from a state with at most one vote row per (user, poll)
pair, every sequential execution of castVote, changeVote and removeVote
preserves that property: castVote refuses to insert over an existing
vote, changeVote only rewrites option references in place, and
removeVote only deletes. -/
theorem one_vote_invariant (s : DBState) (h : OneVotePerUserPoll s.votes)
    (ops : List VoteOp) : OneVotePerUserPoll (runVoteOps s ops).votes := by
  induction ops generalizing s with
  | nil => exact h
  | cons op rest ih => exact ih (applyVoteOp s op) (applyVoteOp_preserves s op h)

/-- Witness for C1 on a concrete state with one vote and a mixed
sequence of voting actions. -/
theorem one_vote_invariant_witness :
    OneVotePerUserPoll
      (runVoteOps sVoted
        [VoteOp.cast 0 uBob 1 3, VoteOp.cast 0 uAlice 1 3,
         VoteOp.change 1 uBob 1 3, VoteOp.remove 2 uBob 1,
         VoteOp.cast 3 uBob 1 2]).votes :=
  one_vote_invariant sVoted (fun _ _ => List.countP_le_length _) _

/-- C6 (amended): the changeVote contract. With the poll row in storage:
an ended poll yields the PollEnded error with no mutation; otherwise the
action reports success and rewrites the option reference of every vote
row of the acting user for the poll; in particular when no prior vote
exists the action still reports success and changes nothing at all — the
source has no VoteNotFound failure. -/
theorem changeVote_contract (s : DBState) (now : Int) (u : UserId)
    (pid newOid : Nat) (poll : PollRow) (hfind : findPoll s pid = some poll) :
    (afterEnd poll.ends_at now = true →
      changeVote s now u pid newOid = (.pollEnded, s)) ∧
    (afterEnd poll.ends_at now = false →
      changeVote s now u pid newOid =
        (.success,
          { s with
              votes := s.votes.map (fun v =>
                if v.user_id == u && v.poll_id == pid then
                  { v with option_id := newOid }
                else v) })) ∧
    (afterEnd poll.ends_at now = false →
      hasVote s.votes u pid = false →
      changeVote s now u pid newOid = (.success, s)) := by
  refine ⟨fun ha => by simp [changeVote, hfind, ha],
          fun ha => by simp [changeVote, hfind, ha], ?_⟩
  intro ha hv
  have hid : s.votes.map (fun v : VoteRow =>
      if v.user_id == u && v.poll_id == pid then
        { v with option_id := newOid }
      else v) = s.votes := by
    have hall : ∀ v ∈ s.votes, (fun v : VoteRow =>
        if v.user_id == u && v.poll_id == pid then
          { v with option_id := newOid }
        else v) v = id v := by
      intro v hvm
      have hp := List.any_eq_false.mp hv v hvm
      simp only [id]
      exact if_neg hp
    exact (List.map_congr_left hall).trans (List.map_id _)
  simp only [changeVote, hfind, ha, Bool.false_eq_true, if_false]
  rw [hid]

/-- C6 counterexample: on an active poll where the user has no prior
vote, changeVote reports success with the state unchanged instead of
failing with a VoteNotFound error as the claim demands. -/
theorem changeVote_noPriorVote_counterexample :
    hasVote sOpen.votes uBob 1 = false ∧
    changeVote sOpen 0 uBob 1 3 = (VoteOutcome.success, sOpen) := by
  decide

/-- Witness for the amended C6 theorem: the ended case errors with no
mutation, the existing-vote case succeeds, and the no-prior-vote case
succeeds vacuously. -/
theorem changeVote_contract_witness :
    changeVote sEndedVoted 5 uBob 1 3 = (VoteOutcome.pollEnded, sEndedVoted) ∧
    (changeVote sVoted 0 uBob 1 3).1 = VoteOutcome.success ∧
    changeVote sOpen 0 uAlice 1 3 = (VoteOutcome.success, sOpen) := by
  have h1 := changeVote_contract sEndedVoted 5 uBob 1 3 pollEnded (by decide)
  have h2 := changeVote_contract sVoted 0 uBob 1 3 pollOpen (by decide)
  have h3 := changeVote_contract sOpen 0 uAlice 1 3 pollOpen (by decide)
  exact ⟨h1.1 (by decide), by rw [h2.2.1 (by decide)],
         h3.2.2 (by decide) (by decide)⟩

/-- C7: the removeVote contract. With the poll row in storage: an ended
poll yields the PollEnded error and every vote row is left in place;
otherwise — with no check at all on the start of the window, so also on
a not-yet-started poll — the action reports success and deletes exactly
the vote rows of the acting user for the poll, leaving the user with no
vote there; and when no such vote row exists it succeeds vacuously,
changing nothing. -/
theorem removeVote_contract (s : DBState) (now : Int) (u : UserId)
    (pid : Nat) (poll : PollRow) (hfind : findPoll s pid = some poll) :
    (afterEnd poll.ends_at now = true →
      removeVote s now u pid = (.pollEnded, s)) ∧
    (afterEnd poll.ends_at now = false →
      removeVote s now u pid =
        (.success,
          { s with
              votes := s.votes.filter (fun v =>
                !(v.user_id == u && v.poll_id == pid)) }) ∧
      hasVote (removeVote s now u pid).2.votes u pid = false) ∧
    (afterEnd poll.ends_at now = false →
      hasVote s.votes u pid = false →
      removeVote s now u pid = (.success, s)) := by
  refine ⟨fun ha => by simp [removeVote, hfind, ha], ?_, ?_⟩
  · intro ha
    refine ⟨by simp [removeVote, hfind, ha], ?_⟩
    simp only [removeVote, hfind, ha, Bool.false_eq_true, if_false]
    rw [hasVote, List.any_eq_false]
    intro v hvm
    have := (List.mem_filter.mp hvm).2
    simp only [Bool.not_eq_eq_eq_not, Bool.not_true] at this
    simp [this]
  · intro ha hv
    have hflt : s.votes.filter (fun v : VoteRow =>
        !(v.user_id == u && v.poll_id == pid)) = s.votes := by
      refine List.filter_eq_self.mpr (fun v hvm => ?_)
      have hp := List.any_eq_false.mp hv v hvm
      simp only [Bool.not_eq_eq_eq_not, Bool.not_true]
      exact Bool.of_not_eq_true hp
    simp only [removeVote, hfind, ha, Bool.false_eq_true, if_false]
    rw [hflt]

/-- Witness for C7: the ended case errors and the vote row stays; the
not-yet-started case still deletes the vote; the no-vote case succeeds
vacuously. -/
theorem removeVote_contract_witness :
    removeVote sEndedVoted 5 uBob 1 = (VoteOutcome.pollEnded, sEndedVoted) ∧
    removeVote sFutureVoted 0 uBob 1 =
      (VoteOutcome.success, { sFutureVoted with votes := [] }) ∧
    removeVote sOpen 0 uBob 1 = (VoteOutcome.success, sOpen) := by
  have h1 := removeVote_contract sEndedVoted 5 uBob 1 pollEnded (by decide)
  have h2 := removeVote_contract sFutureVoted 0 uBob 1 pollFuture (by decide)
  have h3 := removeVote_contract sOpen 0 uBob 1 pollOpen (by decide)
  refine ⟨h1.1 (by decide), ?_, h3.2.2 (by decide) (by decide)⟩
  rw [(h2.2.1 (by decide)).1]
  decide

/-! ## Option reconciliation theorems -/

/-- Every row produced by a bulk option insert carries an identifier at
or above the starting fresh identifier. -/
theorem insertFresh_id_ge (pid : Nat) :
    ∀ (n : Nat) (l : List String) (o : OptionRow),
      o ∈ insertFresh pid n l → n ≤ o.id := by
  intro n l
  induction l generalizing n with
  | nil =>
    intro o h
    simp [insertFresh] at h
  | cons v vs ih =>
    intro o h
    rw [insertFresh] at h
    rcases List.mem_cons.mp h with rfl | h2
    · exact Nat.le_refl _
    · exact Nat.le_of_succ_le (ih (n + 1) o h2)

/-- The values of a bulk option insert are exactly the submitted
values, in order. -/
theorem insertFresh_values (pid : Nat) :
    ∀ (n : Nat) (l : List String),
      (insertFresh pid n l).map OptionRow.value = l := by
  intro n l
  induction l generalizing n with
  | nil => rfl
  | cons v vs ih => simp [insertFresh, ih]

/-- C4: db_updatePollOptions reconciles by value-set difference. With
distinct stored identifiers all below the fresh counter, the result is
exactly the stored rows whose value appears in the submission — their
identifiers untouched — followed by fresh rows for the submitted values
absent from storage; consequently a submission whose value set equals
the stored value set (in any order) returns the stored rows unchanged,
while a renamed value drops the old row (by identifier) and appends a
fresh row. -/
theorem db_updatePollOptions_spec (pid : Nat) (existing : List OptionRow)
    (newOptions : List String) (nextId : Nat)
    (hnodup : (existing.map OptionRow.id).Nodup)
    (hfresh : ∀ o ∈ existing, o.id < nextId) :
    db_updatePollOptions pid existing newOptions nextId =
      existing.filter (fun o => newOptions.contains o.value) ++
        insertFresh pid nextId
          (newOptions.filter (fun v => !((existing.map OptionRow.value).contains v))) ∧
    ((∀ v ∈ newOptions, v ∈ existing.map OptionRow.value) →
     (∀ o ∈ existing, o.value ∈ newOptions) →
      db_updatePollOptions pid existing newOptions nextId = existing) := by
  have hmain : db_updatePollOptions pid existing newOptions nextId =
      existing.filter (fun o => newOptions.contains o.value) ++
        insertFresh pid nextId
          (newOptions.filter (fun v => !((existing.map OptionRow.value).contains v))) := by
    simp only [db_updatePollOptions]
    rw [List.filter_append]
    congr 1
    · refine List.filter_congr (fun o ho => ?_)
      have hiff : ¬(o.id ∈
          (existing.filter (fun o2 => !(newOptions.contains o2.value))).map
            OptionRow.id) ↔ o.value ∈ newOptions := by
        constructor
        · intro hnm
          by_contra hvn
          exact hnm (List.mem_map.mpr
            ⟨o, List.mem_filter.mpr ⟨ho, by simpa using hvn⟩, rfl⟩)
        · intro hvm hm
          obtain ⟨o2, ho2, hid2⟩ := List.mem_map.mp hm
          obtain ⟨ho2e, hq⟩ := List.mem_filter.mp ho2
          have heq : o2 = o := List.inj_on_of_nodup_map hnodup ho2e ho hid2
          subst heq
          simp only [Bool.not_eq_true', List.elem_eq_mem,
            decide_eq_false_iff_not] at hq
          exact hq hvm
      rw [(by simp :
            ((existing.filter (fun o2 => !(newOptions.contains o2.value))).map
              OptionRow.id).contains o.id =
            decide (o.id ∈
              (existing.filter (fun o2 => !(newOptions.contains o2.value))).map
                OptionRow.id)),
          (by simp :
            newOptions.contains o.value = decide (o.value ∈ newOptions)),
          ← decide_not]
      exact decide_eq_decide.mpr hiff
    · refine List.filter_eq_self.mpr (fun o hom => ?_)
      have hge := insertFresh_id_ge pid nextId _ o hom
      simp only [Bool.not_eq_true', List.elem_eq_mem, decide_eq_false_iff_not]
      intro hm
      obtain ⟨o2, ho2, hid2⟩ := List.mem_map.mp hm
      have hlt := hfresh o2 (List.mem_filter.mp ho2).1
      omega
  refine ⟨hmain, fun hsub hsup => ?_⟩
  rw [hmain]
  have h1 : existing.filter (fun o => newOptions.contains o.value) = existing :=
    List.filter_eq_self.mpr (fun o ho => by simpa using hsup o ho)
  have h2 : newOptions.filter
      (fun v => !((existing.map OptionRow.value).contains v)) = [] :=
    List.filter_eq_nil_iff.mpr (fun v hv => by simpa using hsub v hv)
  rw [h1, h2]
  simp [insertFresh]

/-- Witness for C4: re-submitting the same two values reordered keeps
both stored rows with their identifiers, and renaming one value deletes
the old row and appends a fresh one. -/
theorem db_updatePollOptions_spec_witness :
    db_updatePollOptions 1 optsAB valsBA 10 = optsAB ∧
    db_updatePollOptions 1 optsAB valsAC 10 =
      [optA] ++ insertFresh 1 10 (valsAC.filter
        (fun v => !((optsAB.map OptionRow.value).contains v))) := by
  have h1 := db_updatePollOptions_spec 1 optsAB valsBA 10 (by decide) (by decide)
  have h2 := db_updatePollOptions_spec 1 optsAB valsAC 10 (by decide) (by decide)
  refine ⟨h1.2 (by decide) (by decide), ?_⟩
  rw [h2.1]
  decide

/-! ## Validation theorems -/

/-- The Set-size-equals-length uniqueness test of the validator holds
exactly when the list has no duplicates. -/
theorem dedup_length_eq_iff_nodup {l : List String} :
    l.dedup.length = l.length ↔ l.Nodup := by
  constructor
  · intro h
    have heq := (List.dedup_sublist l).eq_of_length h
    rw [← heq]
    exact List.nodup_dedup l
  · intro h
    rw [List.dedup_eq_self.mpr h]

/-- A submission that passes validation has a nonempty option list. -/
theorem validate_options_nonempty {i : PollInput}
    (h : validatePollInput i = true) : i.options ≠ [] := by
  intro hnil
  rw [validatePollInput, hnil] at h
  simp at h

/-- C8: validation succeeds exactly when the question has length at
least 5, there are at least 2 options each of length at least 1, the
option values are pairwise distinct, and end is after start whenever
both are present; and on a validation failure neither createPoll variant
nor editPoll mutates the state — each reports the validation error with
the state unchanged. -/
theorem validation_spec (i : PollInput) (s : DBState) (u : UserId)
    (pid : Nat) (b : Bool) :
    (validatePollInput i = true ↔
      (5 ≤ i.question.length ∧ 2 ≤ i.options.length ∧
       (∀ v ∈ i.options, 1 ≤ v.length) ∧ i.options.Nodup ∧
       (∀ st en, i.starts_at = some st → i.ends_at = some en → st < en))) ∧
    (validatePollInput i = false →
      PollManagement.createPoll s u i b = (.validationError, s) ∧
      Actions.createPoll s u i b = (.validationError, s) ∧
      PollManagement.editPoll s u pid i = (.validationError, s)) := by
  constructor
  · obtain ⟨q, opts, st, en⟩ := i
    cases st <;> cases en <;>
      simp [validatePollInput, Bool.and_eq_true, decide_eq_true_eq,
        List.all_eq_true, dedup_length_eq_iff_nodup, and_assoc]
  · intro h
    have hc : (!validatePollInput i) = true := by rw [h]; rfl
    refine ⟨?_, ?_, ?_⟩ <;>
      simp [PollManagement.createPoll, Actions.createPoll,
        PollManagement.editPoll, hc]

/-- Witness for C8: a too-short question fails validation and none of
the mutating actions touches the state. -/
theorem validation_spec_witness :
    validatePollInput inputShort = false ∧
    PollManagement.createPoll sOpen uAlice inputShort false =
      (ActionResult.validationError, sOpen) ∧
    Actions.createPoll sOpen uAlice inputShort false =
      (ActionResult.validationError, sOpen) ∧
    PollManagement.editPoll sOpen uAlice 1 inputShort =
      (ActionResult.validationError, sOpen) := by
  have h := validation_spec inputShort sOpen uAlice 1 false
  have hf : validatePollInput inputShort = false := by decide
  exact ⟨hf, (h.2 hf).1, (h.2 hf).2.1, (h.2 hf).2.2⟩

/-! ## Poll creation theorems -/

/-- C5 counterexample: when the option insert fails after the poll
insert succeeded, the legacy createPoll of actions.ts surfaces the error
without deleting the just-created poll, leaving a reachable state that
contains a poll with zero options. -/
theorem createPoll_legacy_orphan_counterexample :
    (Actions.createPoll emptyS uAlice inputGood true).1 =
      ActionResult.optionsInsertError ∧
    ¬ PollsHaveOptions (Actions.createPoll emptyS uAlice inputGood true).2 := by
  refine ⟨by decide, fun h => ?_⟩
  obtain ⟨o, ho, hpo⟩ := h ⟨0, qFav, uAlice, none, none⟩ (by decide)
  have hopts : (Actions.createPoll emptyS uAlice inputGood true).2.options = [] := by
    decide
  rw [hopts] at ho
  exact List.not_mem_nil o ho

/-- C5 (amended): the modular createPoll of poll-management.ts performs
the compensating delete: whatever the outcome, a state with no
zero-option poll is taken to a state with no zero-option poll, and on
the option-insert failure path the polls, options and votes tables are
exactly as before the call. The legacy createPoll of actions.ts lacks
the compensating delete (see the counterexample). -/
theorem createPoll_pm_no_orphans (s : DBState) (u : UserId) (i : PollInput)
    (b : Bool) (hfresh : ∀ p ∈ s.polls, p.id < s.nextId)
    (hinv : PollsHaveOptions s) :
    PollsHaveOptions (PollManagement.createPoll s u i b).2 ∧
    (validatePollInput i = true →
      (PollManagement.createPoll s u i true).2.polls = s.polls ∧
      (PollManagement.createPoll s u i true).2.options = s.options ∧
      (PollManagement.createPoll s u i true).2.votes = s.votes) := by
  constructor
  · cases hval : validatePollInput i with
    | false =>
      have hc : (!validatePollInput i) = true := by rw [hval]; rfl
      simpa [PollManagement.createPoll, hc] using hinv
    | true =>
      have hc : (!validatePollInput i) = false := by rw [hval]; rfl
      cases b with
      | true =>
        simp only [PollManagement.createPoll, hc, Bool.false_eq_true, if_false,
          if_true]
        intro p hp
        obtain ⟨hpm, hpred⟩ := List.mem_filter.mp hp
        rcases List.mem_append.mp hpm with hpold | hpnew
        · exact hinv p hpold
        · rcases List.mem_singleton.mp hpnew with rfl
          simp at hpred
      | false =>
        simp only [PollManagement.createPoll, hc, Bool.false_eq_true, if_false,
          if_true]
        intro p hp
        rcases List.mem_append.mp hp with hpold | hpnew
        · obtain ⟨o, ho, hpo⟩ := hinv p hpold
          exact ⟨o, List.mem_append_left _ ho, hpo⟩
        · rcases List.mem_singleton.mp hpnew with rfl
          obtain ⟨v, vs, hvs⟩ :=
            List.exists_cons_of_ne_nil (validate_options_nonempty hval)
          refine ⟨⟨s.nextId + 1, s.nextId, v⟩, List.mem_append_right _ ?_, rfl⟩
          rw [hvs, insertFresh]
          exact List.mem_cons_self _ _
  · intro hval
    have hc : (!validatePollInput i) = false := by rw [hval]; rfl
    simp only [PollManagement.createPoll, hc, Bool.false_eq_true, if_false,
      if_true]
    refine ⟨?_, by trivial, by trivial⟩
    rw [List.filter_append]
    have hA : s.polls.filter (fun p => !(p.id == s.nextId)) = s.polls := by
      refine List.filter_eq_self.mpr (fun p hp => ?_)
      have := hfresh p hp
      simp only [Bool.not_eq_true', beq_eq_false_iff_ne, ne_eq]
      omega
    have hB : ([⟨s.nextId, i.question, u, i.starts_at, i.ends_at⟩] :
        List PollRow).filter (fun p => !(p.id == s.nextId)) = [] := by
      simp
    rw [hA, hB, List.append_nil]

/-- Witness for the amended C5 theorem: on a concrete state the
compensating path restores the polls table and no zero-option poll
exists afterwards. -/
theorem createPoll_pm_no_orphans_witness :
    PollsHaveOptions (PollManagement.createPoll sOpen uAlice inputGood true).2 ∧
    (PollManagement.createPoll sOpen uAlice inputGood true).2.polls =
      sOpen.polls := by
  have h := createPoll_pm_no_orphans sOpen uAlice inputGood true (by decide)
    (fun p hp => by
      rcases List.mem_singleton.mp hp with rfl
      exact ⟨optA, by decide, by decide⟩)
  exact ⟨h.1, (h.2 (by decide)).1⟩

/-! ## Poll duplication theorems -/

/-- Every row produced by a bulk option insert belongs to the target
poll. -/
theorem insertFresh_poll_id (pid : Nat) :
    ∀ (n : Nat) (l : List String) (o : OptionRow),
      o ∈ insertFresh pid n l → o.poll_id = pid := by
  intro n l
  induction l generalizing n with
  | nil =>
    intro o h
    simp [insertFresh] at h
  | cons v vs ih =>
    intro o h
    rw [insertFresh] at h
    rcases List.mem_cons.mp h with rfl | h2
    · rfl
    · exact ih (n + 1) o h2

/-- C9 (amended): duplicatePoll on a stored source poll creates one new
poll owned by the caller with both window endpoints unset, whose
question is the supplied new question when that is given and nonempty
and the copy-of default otherwise (the source applies the JS truthy
or-else, so an empty supplied question also falls back to the default);
it copies every source option value onto a fresh option row of the new
poll, makes no vote row, and every fresh option has a zero vote
count. -/
theorem duplicatePoll_spec (s : DBState) (u : UserId) (pid : Nat)
    (nq : Option String) (orig : PollRow) (hfind : findPoll s pid = some orig)
    (hv : ∀ v ∈ s.votes, v.option_id < s.nextId) :
    (duplicatePoll s u pid nq).1 = some s.nextId ∧
    (duplicatePoll s u pid nq).2.polls =
      s.polls ++ [⟨s.nextId, jsOr nq ("Copy of " ++ orig.question), u, none, none⟩] ∧
    (duplicatePoll s u pid nq).2.votes = s.votes ∧
    (duplicatePoll s u pid nq).2.options =
      s.options ++ insertFresh s.nextId (s.nextId + 1) (pollOptionValues s pid) ∧
    (insertFresh s.nextId (s.nextId + 1) (pollOptionValues s pid)).map
      OptionRow.value = pollOptionValues s pid ∧
    (∀ o ∈ insertFresh s.nextId (s.nextId + 1) (pollOptionValues s pid),
      o.poll_id = s.nextId ∧
      voteCountOfOption (duplicatePoll s u pid nq).2.votes o.id = 0) := by
  have hzero : ∀ o ∈ insertFresh s.nextId (s.nextId + 1) (pollOptionValues s pid),
      voteCountOfOption s.votes o.id = 0 := by
    intro o ho
    have hge := insertFresh_id_ge s.nextId (s.nextId + 1) _ o ho
    refine List.countP_eq_zero.mpr (fun v hvm => ?_)
    have hlt := hv v hvm
    simp only [beq_iff_eq]
    omega
  cases hlen : (pollOptionValues s pid).length == 0 with
  | true =>
    have hnil : pollOptionValues s pid = [] :=
      List.length_eq_zero.mp (by simpa using hlen)
    simp only [duplicatePoll, hfind, hlen, if_true]
    rw [hnil]
    refine ⟨by trivial, by trivial, by trivial, by simp [insertFresh],
      by simp [insertFresh], ?_⟩
    intro o ho
    simp [insertFresh] at ho
  | false =>
    simp only [duplicatePoll, hfind, hlen, Bool.false_eq_true, if_false]
    refine ⟨by trivial, by trivial, by trivial, by trivial,
      insertFresh_values _ _ _, fun o ho => ?_⟩
    exact ⟨insertFresh_poll_id _ _ _ o ho, hzero o ho⟩

/-- C9 counterexample: supplying an empty new question does not make the
duplicate carry that supplied question — the created poll is titled with
the copy-of default instead, because the source applies the JS truthy
or-else. -/
theorem duplicatePoll_emptyQuestion_counterexample :
    (duplicatePoll sOpen uBob 1 (some emptyStr)).2.polls =
      sOpen.polls ++ [⟨sOpen.nextId, copyQFav, uBob, none, none⟩] ∧
    copyQFav ≠ emptyStr := by
  decide

/-- Witness for the amended C9 theorem: duplicating a concrete poll with
no supplied question yields the copy-of title, fresh options with the
source values, and no votes. -/
theorem duplicatePoll_spec_witness :
    (duplicatePoll sVoted uBob 1 none).1 = some sVoted.nextId ∧
    (duplicatePoll sVoted uBob 1 none).2.polls =
      sVoted.polls ++ [⟨sVoted.nextId, copyQFav, uBob, none, none⟩] ∧
    (duplicatePoll sVoted uBob 1 none).2.votes = sVoted.votes := by
  have h := duplicatePoll_spec sVoted uBob 1 none pollOpen (by decide) (by decide)
  refine ⟨h.1, ?_, h.2.2.1⟩
  rw [h.2.1]
  decide

end Polly
